import Mathlib

/-!
Verification development for the magic-crayon geometry engine
(src/src/Ground.ts: classes Ground and Billboard, written against three.js).

Numeric model: JavaScript numbers are modeled by exact rationals.  Square
roots do not exist in the rationals, so every operation that calls
Math.sqrt in the source (vector normalization, distances, ray/sphere
intersection, lookAt) takes the square-root function as an explicit
parameter sqrtFn; theorems quantify over it, adding hypotheses only where
a claim genuinely depends on square-root facts.  A second numeric model
(FVal, at the end of the definitions) adds IEEE-style NaN and infinities
on top of exact rationals for the claims about degenerate divisions.

The camera is modeled through its unprojection interface (a function from
device coordinates to a world-space ray, which is what
THREE.Raycaster.setFromCamera produces) together with its position,
quaternion, rotation and inverse projection matrix, matching the fields
of THREE.Camera the source reads.  Object3D Euler rotations are modeled
directly by their rotation matrices: the source only ever writes a
rotation via lookAt (a matrix, converted to Euler angles) and reads it
via makeRotationFromEuler (converted back), and this round trip is the
identity on rotations.
-/

/-- Two-dimensional vector (THREE.Vector2) with exact rational entries. -/
structure Vec2 where
  x : ℚ
  y : ℚ
deriving DecidableEq, Repr

/-- Three-dimensional vector (THREE.Vector3) with exact rational entries. -/
structure Vec3 where
  x : ℚ
  y : ℚ
  z : ℚ
deriving DecidableEq, Repr

instance : Add Vec2 := ⟨fun a b => ⟨a.x + b.x, a.y + b.y⟩⟩
instance : Sub Vec2 := ⟨fun a b => ⟨a.x - b.x, a.y - b.y⟩⟩
instance : Neg Vec2 := ⟨fun a => ⟨-a.x, -a.y⟩⟩
instance : SMul ℚ Vec2 := ⟨fun c a => ⟨c * a.x, c * a.y⟩⟩

instance : Add Vec3 := ⟨fun a b => ⟨a.x + b.x, a.y + b.y, a.z + b.z⟩⟩
instance : Sub Vec3 := ⟨fun a b => ⟨a.x - b.x, a.y - b.y, a.z - b.z⟩⟩
instance : Neg Vec3 := ⟨fun a => ⟨-a.x, -a.y, -a.z⟩⟩
instance : SMul ℚ Vec3 := ⟨fun c a => ⟨c * a.x, c * a.y, c * a.z⟩⟩

@[simp] theorem vec2_add_x (a b : Vec2) : (a + b).x = a.x + b.x := rfl
@[simp] theorem vec2_add_y (a b : Vec2) : (a + b).y = a.y + b.y := rfl
@[simp] theorem vec2_sub_x (a b : Vec2) : (a - b).x = a.x - b.x := rfl
@[simp] theorem vec2_sub_y (a b : Vec2) : (a - b).y = a.y - b.y := rfl
@[simp] theorem vec2_smul_x (c : ℚ) (a : Vec2) : (c • a).x = c * a.x := rfl
@[simp] theorem vec2_smul_y (c : ℚ) (a : Vec2) : (c • a).y = c * a.y := rfl

@[simp] theorem vec3_add_x (a b : Vec3) : (a + b).x = a.x + b.x := rfl
@[simp] theorem vec3_add_y (a b : Vec3) : (a + b).y = a.y + b.y := rfl
@[simp] theorem vec3_add_z (a b : Vec3) : (a + b).z = a.z + b.z := rfl
@[simp] theorem vec3_sub_x (a b : Vec3) : (a - b).x = a.x - b.x := rfl
@[simp] theorem vec3_sub_y (a b : Vec3) : (a - b).y = a.y - b.y := rfl
@[simp] theorem vec3_sub_z (a b : Vec3) : (a - b).z = a.z - b.z := rfl
@[simp] theorem vec3_smul_x (c : ℚ) (a : Vec3) : (c • a).x = c * a.x := rfl
@[simp] theorem vec3_smul_y (c : ℚ) (a : Vec3) : (c • a).y = c * a.y := rfl
@[simp] theorem vec3_smul_z (c : ℚ) (a : Vec3) : (c • a).z = c * a.z := rfl

/-- Dot product of two 3D vectors (THREE.Vector3.dot). -/
def dot3 (a b : Vec3) : ℚ := a.x * b.x + a.y * b.y + a.z * b.z

/-- Cross product of two 3D vectors (THREE.Vector3.crossVectors). -/
def cross3 (a b : Vec3) : Vec3 :=
  ⟨a.y * b.z - a.z * b.y, a.z * b.x - a.x * b.z, a.x * b.y - a.y * b.x⟩

/-- Squared length of a 3D vector (THREE.Vector3.lengthSq). -/
def lengthSq3 (v : Vec3) : ℚ := v.x * v.x + v.y * v.y + v.z * v.z

/-- Componentwise division by a scalar (THREE.Vector3.divideScalar). -/
def divideScalar3 (v : Vec3) (s : ℚ) : Vec3 := ⟨v.x / s, v.y / s, v.z / s⟩

/-- Normalization (THREE.Vector3.normalize), which divides by the length
when it is nonzero and by 1 otherwise (the source reads
divideScalar(this.length() or 1), with a JavaScript falsy test on the
length).  Math.sqrt is the explicit parameter sqrtFn. -/
def normalize3 (sqrtFn : ℚ → ℚ) (v : Vec3) : Vec3 :=
  let l := sqrtFn (lengthSq3 v)
  divideScalar3 v (if l = 0 then 1 else l)

/-- Squared distance between 2D points (THREE.Vector2.distanceToSquared). -/
def distSq2 (a b : Vec2) : ℚ := (a.x - b.x) * (a.x - b.x) + (a.y - b.y) * (a.y - b.y)

/-- Distance between 2D points (THREE.Vector2.distanceTo), with Math.sqrt
as the explicit parameter sqrtFn. -/
def distanceTo2 (sqrtFn : ℚ → ℚ) (a b : Vec2) : ℚ := sqrtFn (distSq2 a b)

/-- Normalization of a 2D vector (THREE.Vector2.normalize), same falsy
guard on the length as in the 3D case. -/
def normalize2 (sqrtFn : ℚ → ℚ) (v : Vec2) : Vec2 :=
  let l := sqrtFn (v.x * v.x + v.y * v.y)
  let d := if l = 0 then 1 else l
  ⟨v.x / d, v.y / d⟩

/-- Rotation of a 2D vector by pi/2 around the origin
(THREE.Vector2.rotateAround with center (0,0) and angle Math.PI/2,
evaluated with exact trigonometry: cos = 0, sin = 1). -/
def rotate90 (v : Vec2) : Vec2 := ⟨-v.y, v.x⟩

/-- Plane in Hessian normal form (THREE.Plane: unit normal and constant). -/
structure Plane where
  normal : Vec3
  constant : ℚ
deriving DecidableEq, Repr

/-- THREE.Plane.setFromNormalAndCoplanarPoint: keeps the normal and sets
the constant to the negated dot product with the coplanar point. -/
def planeFromNormalAndCoplanarPoint (n p : Vec3) : Plane := ⟨n, -(dot3 p n)⟩

/-- THREE.Plane.distanceToPoint: signed distance. -/
def Plane.distanceToPoint (pl : Plane) (p : Vec3) : ℚ := dot3 pl.normal p + pl.constant

/-- THREE.Plane.projectPoint: perpendicular foot of a point on the plane,
computed as normal scaled by the negated signed distance, added to the point. -/
def Plane.projectPoint (pl : Plane) (p : Vec3) : Vec3 :=
  p + (-(pl.distanceToPoint p)) • pl.normal

/-- Ray with origin and direction (THREE.Ray). -/
structure Ray where
  origin : Vec3
  direction : Vec3
deriving DecidableEq, Repr

/-- THREE.Ray.at: point at parameter t along the ray. -/
def rayAt (r : Ray) (t : ℚ) : Vec3 := r.origin + t • r.direction

/-- THREE.Ray.intersectPlane (via Ray.distanceToPlane): none when the ray
is parallel to the plane and off it, or when the intersection parameter
is negative; otherwise the forward intersection point. -/
def intersectPlane (r : Ray) (p : Plane) : Option Vec3 :=
  let denom := dot3 p.normal r.direction
  if denom = 0 then
    if p.distanceToPoint r.origin = 0 then some (rayAt r 0) else none
  else
    let t := -(dot3 r.origin p.normal + p.constant) / denom
    if 0 ≤ t then some (rayAt r t) else none

/-- Sphere with center and radius (THREE.Sphere). -/
structure Sphere where
  center : Vec3
  radius : ℚ
deriving DecidableEq, Repr

/-- THREE.Ray.intersectSphere: nearest nonnegative-parameter intersection,
none on a miss or when the sphere is entirely behind the origin. -/
def intersectSphere (sqrtFn : ℚ → ℚ) (r : Ray) (s : Sphere) : Option Vec3 :=
  let v := s.center - r.origin
  let tca := dot3 v r.direction
  let d2 := dot3 v v - tca * tca
  let radius2 := s.radius * s.radius
  if radius2 < d2 then none
  else
    let thc := sqrtFn (radius2 - d2)
    let t0 := tca - thc
    let t1 := tca + thc
    if t1 < 0 then none
    else if t0 < 0 then some (rayAt r t1)
    else some (rayAt r t0)

/-- Quaternion (THREE.Quaternion). -/
structure Quat where
  x : ℚ
  y : ℚ
  z : ℚ
  w : ℚ
deriving DecidableEq, Repr

/-- THREE.Vector3.applyQuaternion: t = 2 (q.xyz x v); result
v + q.w t + q.xyz x t. -/
def applyQuaternion (q : Quat) (v : Vec3) : Vec3 :=
  let qv : Vec3 := ⟨q.x, q.y, q.z⟩
  let t := (2 : ℚ) • cross3 qv v
  v + q.w • t + cross3 qv t

/-- Rotation matrix with rows (m00 m01 m02; m10 m11 m12; m20 m21 m22),
modeling a THREE.Euler rotation state by the rotation matrix it denotes
(the source writes rotations only via lookAt and reads them only via
makeRotationFromEuler, and that round trip is the identity on rotations). -/
structure Mat3 where
  m00 : ℚ
  m01 : ℚ
  m02 : ℚ
  m10 : ℚ
  m11 : ℚ
  m12 : ℚ
  m20 : ℚ
  m21 : ℚ
  m22 : ℚ
deriving DecidableEq, Repr

/-- Identity 3x3 matrix (the rotation of a freshly constructed Object3D,
and the result of rotation.set(0,0,0)). -/
def mat3Id : Mat3 := ⟨1, 0, 0, 0, 1, 0, 0, 0, 1⟩

/-- Homogeneous 4x4 matrix with rows (m0x; m1x; m2x; m3x) (THREE.Matrix4,
stored column-major in the source; entry names here are row-column). -/
structure Mat4 where
  m00 : ℚ
  m01 : ℚ
  m02 : ℚ
  m03 : ℚ
  m10 : ℚ
  m11 : ℚ
  m12 : ℚ
  m13 : ℚ
  m20 : ℚ
  m21 : ℚ
  m22 : ℚ
  m23 : ℚ
  m30 : ℚ
  m31 : ℚ
  m32 : ℚ
  m33 : ℚ
deriving DecidableEq, Repr

/-- Identity 4x4 matrix (THREE.Matrix4.identity, also the default local
matrix of a fresh mesh). -/
def mat4Id : Mat4 := ⟨1, 0, 0, 0, 0, 1, 0, 0, 0, 0, 1, 0, 0, 0, 0, 1⟩

/-- Zero 4x4 matrix (what THREE.Matrix4.invert produces on a singular
matrix). -/
def mat4Zero : Mat4 := ⟨0, 0, 0, 0, 0, 0, 0, 0, 0, 0, 0, 0, 0, 0, 0, 0⟩

/-- THREE.Matrix4.makeRotationFromEuler applied to a rotation state:
embeds the 3x3 rotation block into a homogeneous matrix, zeroing the
translation. -/
def mat4OfRot3 (r : Mat3) : Mat4 :=
  ⟨r.m00, r.m01, r.m02, 0,
   r.m10, r.m11, r.m12, 0,
   r.m20, r.m21, r.m22, 0,
   0, 0, 0, 1⟩

/-- Determinant of a 3x3 matrix given by its nine entries in row order. -/
def det3 (a b c d e f g h i : ℚ) : ℚ :=
  a * (e * i - f * h) - b * (d * i - f * g) + c * (d * h - e * g)

/-- Determinant of a 4x4 matrix (cofactor expansion along the first row). -/
def mat4Det (M : Mat4) : ℚ :=
  M.m00 * det3 M.m11 M.m12 M.m13 M.m21 M.m22 M.m23 M.m31 M.m32 M.m33
  - M.m01 * det3 M.m10 M.m12 M.m13 M.m20 M.m22 M.m23 M.m30 M.m32 M.m33
  + M.m02 * det3 M.m10 M.m11 M.m13 M.m20 M.m21 M.m23 M.m30 M.m31 M.m33
  - M.m03 * det3 M.m10 M.m11 M.m12 M.m20 M.m21 M.m22 M.m30 M.m31 M.m32

/-- THREE.Matrix4.invert: the matrix inverse via the adjugate (which is
what the cofactor code in the source library computes), with the zero
matrix returned when the determinant vanishes. -/
def m4invert (M : Mat4) : Mat4 :=
  let dt := mat4Det M
  if dt = 0 then mat4Zero
  else
    ⟨(det3 M.m11 M.m12 M.m13 M.m21 M.m22 M.m23 M.m31 M.m32 M.m33) / dt,
     (-(det3 M.m01 M.m02 M.m03 M.m21 M.m22 M.m23 M.m31 M.m32 M.m33)) / dt,
     (det3 M.m01 M.m02 M.m03 M.m11 M.m12 M.m13 M.m31 M.m32 M.m33) / dt,
     (-(det3 M.m01 M.m02 M.m03 M.m11 M.m12 M.m13 M.m21 M.m22 M.m23)) / dt,
     (-(det3 M.m10 M.m12 M.m13 M.m20 M.m22 M.m23 M.m30 M.m32 M.m33)) / dt,
     (det3 M.m00 M.m02 M.m03 M.m20 M.m22 M.m23 M.m30 M.m32 M.m33) / dt,
     (-(det3 M.m00 M.m02 M.m03 M.m10 M.m12 M.m13 M.m30 M.m32 M.m33)) / dt,
     (det3 M.m00 M.m02 M.m03 M.m10 M.m12 M.m13 M.m20 M.m22 M.m23) / dt,
     (det3 M.m10 M.m11 M.m13 M.m20 M.m21 M.m23 M.m30 M.m31 M.m33) / dt,
     (-(det3 M.m00 M.m01 M.m03 M.m20 M.m21 M.m23 M.m30 M.m31 M.m33)) / dt,
     (det3 M.m00 M.m01 M.m03 M.m10 M.m11 M.m13 M.m30 M.m31 M.m33) / dt,
     (-(det3 M.m00 M.m01 M.m03 M.m10 M.m11 M.m13 M.m20 M.m21 M.m23)) / dt,
     (-(det3 M.m10 M.m11 M.m12 M.m20 M.m21 M.m22 M.m30 M.m31 M.m32)) / dt,
     (det3 M.m00 M.m01 M.m02 M.m20 M.m21 M.m22 M.m30 M.m31 M.m32) / dt,
     (-(det3 M.m00 M.m01 M.m02 M.m10 M.m11 M.m12 M.m30 M.m31 M.m32)) / dt,
     (det3 M.m00 M.m01 M.m02 M.m10 M.m11 M.m12 M.m20 M.m21 M.m22) / dt⟩

/-- THREE.Matrix4.lookAt(eye, target, up): orthonormal frame with z along
eye minus target, including the library's two degeneracy guards (zero
view vector, and up parallel to z). -/
def matLookAt (sqrtFn : ℚ → ℚ) (eye target up : Vec3) : Mat3 :=
  let z0 := eye - target
  let z1 := if lengthSq3 z0 = 0 then ⟨z0.x, z0.y, 1⟩ else z0
  let z2 := normalize3 sqrtFn z1
  let x0 := cross3 up z2
  let zx : Vec3 × Vec3 :=
    if lengthSq3 x0 = 0 then
      let z3 : Vec3 :=
        if |up.z| = 1 then ⟨z2.x + 1 / 10000, z2.y, z2.z⟩
        else ⟨z2.x, z2.y, z2.z + 1 / 10000⟩
      let z4 := normalize3 sqrtFn z3
      (z4, cross3 up z4)
    else (z2, x0)
  let x1 := normalize3 sqrtFn zx.2
  let y := cross3 zx.1 x1
  ⟨x1.x, y.x, zx.1.x,
   x1.y, y.y, zx.1.y,
   x1.z, y.z, zx.1.z⟩

/-- THREE.Object3D.lookAt for a non-camera object with no parent
transform: the rotation becomes lookAt(target, position, up) with the
default up vector (0,1,0). -/
def lookAtRotObj (sqrtFn : ℚ → ℚ) (position target : Vec3) : Mat3 :=
  matLookAt sqrtFn target position ⟨0, 1, 0⟩

/-- Camera state, through the interface the source reads: an unprojection
function (what THREE.Raycaster.setFromCamera yields for a device
coordinate), plus position, quaternion, rotation and the inverse
projection matrix. -/
structure Camera where
  unprojectRay : Vec2 → Ray
  position : Vec3
  quaternion : Quat
  rotationM : Mat3
  projectionMatrixInverse : Mat4

/-- Loop counter sequence of the Ground constructor: the JavaScript loop
for (let i = lo; i <= hi; i += inc) evaluated in exact arithmetic.  The
fuel argument only bounds the recursion; the lemma forLoopQ_exact shows
that for the increments the constructor produces (positive, with hi - lo
an exact multiple of inc) the loop exits by failing its test well inside
the fuel, so the result does not depend on the fuel chosen at the call
site.  For a nonpositive increment the source loop would not terminate. -/
def forLoopQ : ℕ → ℚ → ℚ → ℚ → List ℚ
  | 0, _, _, _ => []
  | fuel + 1, i, hi, inc => if i ≤ hi then i :: forLoopQ fuel (i + inc) hi inc else []

/-- Row (equally, column) coordinates generated by the Ground constructor:
from -size/2 up to size/2 in steps of size/segments. -/
def groundRows (size : ℚ) (segments : ℕ) : List ℚ :=
  forLoopQ (segments + 2) (-size / 2) (size / 2) (size / segments)

/-- Vertices pushed by the Ground constructor: the nested loop pushes
(i, 0, j) with i ranging over the outer loop and j over the inner loop. -/
def groundVertices (size : ℚ) (segments : ℕ) : List Vec3 :=
  (groundRows size segments).flatMap fun i =>
    (groundRows size segments).map fun j => (⟨i, 0, j⟩ : Vec3)

/-- Ground.convertRowColToIndex: row * (segments + 1) + col. -/
def convertRowColToIndex (segments row col : ℕ) : ℕ := row * (segments + 1) + col

/-- Triangle index buffer built by the Ground constructor: for each grid
cell (i, j), two triangles of three indices each, in source push order. -/
def groundIndices (segments : ℕ) : List ℕ :=
  (List.range segments).flatMap fun i =>
    (List.range segments).flatMap fun j =>
      [convertRowColToIndex segments i j,
       convertRowColToIndex segments i (j + 1),
       convertRowColToIndex segments (i + 1) j,
       convertRowColToIndex segments (i + 1) j,
       convertRowColToIndex segments i (j + 1),
       convertRowColToIndex segments (i + 1) (j + 1)]

/-- Ground state: the fields of class Ground the algorithms read and
write (vertex positions as triples; the flat position buffer of the
source stores them three numbers per vertex). -/
structure Ground where
  size : ℚ
  segments : ℕ
  vertices : List Vec3
deriving DecidableEq, Repr

/-- Ground constructor (buildGroundMesh in the spec's interface list). -/
def Ground.create (size : ℚ) (segments : ℕ) : Ground :=
  ⟨size, segments, groundVertices size segments⟩

/-- Scan loop of Ground.computeH over consecutive curve points, carrying
the previous point: tests ascending bracketing first, then descending,
and recurses past pairs that do not bracket; falls through to 0. -/
def hLoop (planeX origin : Vec3) (xTarget yClosest : ℚ) : Vec3 → List Vec3 → ℚ
  | _, [] => 0
  | prev, cur :: rest =>
    let xStart := dot3 (prev - origin) planeX
    let xEnd := dot3 (cur - origin) planeX
    if xStart ≤ xTarget ∧ xTarget ≤ xEnd then
      let alpha := (xTarget - xStart) / (xEnd - xStart)
      prev.y + alpha * (cur.y - prev.y) - yClosest
    else if xEnd ≤ xTarget ∧ xTarget ≤ xStart then
      let alpha := (xTarget - xEnd) / (xStart - xEnd)
      cur.y + alpha * (prev.y - cur.y) - yClosest
    else hLoop planeX origin xTarget yClosest cur rest

/-- Ground.computeH: plane-space frame (planeY is world up, planeX the
normalized cross of planeY with the plane normal, origin the first curve
point), then the scan over consecutive curve segments.  An empty curve
makes the source fault on silhouetteCurve[0]; the model returns 0 there,
and every theorem about computeH works with a nonempty curve. -/
def computeH (sqrtFn : ℚ → ℚ) (closestPoint : Vec3) (silhouetteCurve : List Vec3)
    (projectionPlane : Plane) : ℚ :=
  let planeY : Vec3 := ⟨0, 1, 0⟩
  let planeX := normalize3 sqrtFn (cross3 planeY projectionPlane.normal)
  match silhouetteCurve with
  | [] => 0
  | origin :: rest =>
    let xTarget := dot3 (closestPoint - origin) planeX
    hLoop planeX origin xTarget closestPoint.y origin rest

/-- Reshape plane of Ground.reshapeGround (its step 1): normal is the
normalized cross of (end minus start) with world up, coplanar point is
the ground start point. -/
def reshapePlaneOf (sqrtFn : ℚ → ℚ) (groundStartPoint groundEndPoint : Vec3) : Plane :=
  let SE := groundEndPoint - groundStartPoint
  let up : Vec3 := ⟨0, 1, 0⟩
  let n := normalize3 sqrtFn (cross3 SE up)
  planeFromNormalAndCoplanarPoint n groundStartPoint

/-- Silhouette curve construction of Ground.reshapeGround (its step 2):
one ray per screen sample through the camera, intersected with the
reshape plane; the target vector is freshly zero-initialized each
iteration and left untouched when intersectPlane reports no hit, so a
missed intersection contributes the zero point. -/
def buildSilhouette (cam : Camera) (reshapePlane : Plane) (screenPath : List Vec2) : List Vec3 :=
  screenPath.map fun p =>
    (intersectPlane (cam.unprojectRay p) reshapePlane).getD ⟨0, 0, 0⟩

/-- Per-vertex update of Ground.reshapeGround (its step 3): perpendicular
foot on the plane, signed distance d, falloff weight
w = max(0, 1 - (d/5)^2), height term h from computeH, and the blended
height written only when h is nonzero. -/
def reshapeVertex (sqrtFn : ℚ → ℚ) (reshapePlane : Plane) (silhouetteCurve : List Vec3)
    (v : Vec3) : Vec3 :=
  let closestPointOnPlane := reshapePlane.projectPoint v
  let d := reshapePlane.distanceToPoint v
  let w := max 0 (1 - (d / 5) ^ 2)
  let h := computeH sqrtFn closestPointOnPlane silhouetteCurve reshapePlane
  if h ≠ 0 then ⟨v.x, (1 - w) * v.y + w * h, v.z⟩ else v

/-- Ground.reshapeGround: builds the reshape plane and silhouette curve,
then applies the per-vertex height update across the vertex buffer. -/
def reshapeGround (sqrtFn : ℚ → ℚ) (g : Ground) (screenPath : List Vec2)
    (groundStartPoint groundEndPoint : Vec3) (cam : Camera) : Ground :=
  let reshapePlane := reshapePlaneOf sqrtFn groundStartPoint groundEndPoint
  let silhouetteCurve := buildSilhouette cam reshapePlane screenPath
  { g with vertices := g.vertices.map (reshapeVertex sqrtFn reshapePlane silhouetteCurve) }

/-- Billboard state: the fields of class Billboard the algorithms read
and write.  vertices holds the flat position buffer as triples; indices
is the index buffer; position and the rotation matrix model the
Object3D transform; meshMatrix models the child mesh's local matrix. -/
structure Billboard where
  strokeWidth : ℚ
  screenPath : List Vec2
  worldOrigin : Vec3
  vertices : List Vec3
  indices : List ℤ
  position : Vec3
  rotationM : Mat3
  meshMatrix : Mat4
deriving DecidableEq, Repr

/-- Billboard constructor: one screen-path point, two coincident vertices
at depth -0.999, empty index buffer, transform at the Object3D defaults
(zero position, identity rotation, identity mesh matrix). -/
def Billboard.init (deviceCoords : Vec2) (worldOrigin : Vec3) (strokeWidth : ℚ) : Billboard :=
  { strokeWidth := strokeWidth
    screenPath := [deviceCoords]
    worldOrigin := worldOrigin
    vertices := [⟨deviceCoords.x, deviceCoords.y, -(999 / 1000)⟩,
                 ⟨deviceCoords.x, deviceCoords.y, -(999 / 1000)⟩]
    indices := []
    position := ⟨0, 0, 0⟩
    rotationM := mat3Id
    meshMatrix := mat4Id }

/-- Billboard.addNewPoint: rejects the point (complete no-op) unless its
distance to the last accepted screen-path point exceeds strokeWidth / 2;
otherwise offsets the point perpendicular to the stroke direction by
strokeWidth / 2 on each side, appends the two vertices and the six
indices of the two new triangles, and appends the accepted point.
nextIndex is the flat buffer length over 3, which is the triple count. -/
def addNewPoint (sqrtFn : ℚ → ℚ) (b : Billboard) (deviceCoords : Vec2) : Billboard :=
  let newPoint := deviceCoords
  let endPoint := (b.screenPath.getLast?).getD ⟨0, 0⟩
  if distanceTo2 sqrtFn newPoint endPoint > b.strokeWidth / 2 then
    let strokeVector := (b.strokeWidth / 2) • rotate90 (normalize2 sqrtFn (newPoint - endPoint))
    let vertex1 := newPoint - strokeVector
    let vertex2 := newPoint + strokeVector
    let nextIndex : ℤ := (b.vertices.length : ℤ)
    { b with
      vertices := b.vertices ++
        [⟨vertex1.x, vertex1.y, -(999 / 1000)⟩, ⟨vertex2.x, vertex2.y, -(999 / 1000)⟩]
      indices := b.indices ++
        [nextIndex, nextIndex + 1, nextIndex - 2, nextIndex - 1, nextIndex - 2, nextIndex + 1]
      screenPath := b.screenPath ++ [newPoint] }
  else b

/-- Billboard.projectToNearPlane: no guard; copies the camera's inverse
projection matrix into the mesh matrix and the camera's position and
rotation into the billboard transform.  Buffers are untouched. -/
def projectToNearPlane (cam : Camera) (b : Billboard) : Billboard :=
  { b with
    meshMatrix := cam.projectionMatrixInverse
    position := cam.position
    rotationM := cam.rotationM }

/-- Billboard.projectToWorld: returns unchanged when the flat vertex
buffer has fewer than 3 entries (fewer than one whole vertex); otherwise
builds the camera-facing plane through worldOrigin, moves the billboard
to worldOrigin, orients it toward the point under the camera, sets the
mesh matrix to the inverse of that rotation (the identity assignment in
the source is immediately overwritten), and replaces every vertex by its
ray-plane intersection relative to the new position. -/
def projectToWorld (sqrtFn : ℚ → ℚ) (cam : Camera) (b : Billboard) : Billboard :=
  if 3 * b.vertices.length < 3 then b
  else
    let planeNormal := applyQuaternion cam.quaternion ⟨0, 0, -1⟩
    let projectionPlane := planeFromNormalAndCoplanarPoint planeNormal b.worldOrigin
    let pos := b.worldOrigin
    let cameraOnGround : Vec3 := ⟨cam.position.x, 0, cam.position.z⟩
    let rot := lookAtRotObj sqrtFn pos cameraOnGround
    { b with
      position := pos
      rotationM := rot
      meshMatrix := m4invert (mat4OfRot3 rot)
      vertices := b.vertices.map fun v =>
        ((intersectPlane (cam.unprojectRay ⟨v.x, v.y⟩) projectionPlane).getD ⟨0, 0, 0⟩) - pos }

/-- Billboard.projectToBillboard: same guard and plane as projectToWorld
(anchored at this billboard's worldOrigin), but the transform is reset to
the defaults and each intersection is converted into the target
billboard's local frame, modeled by the explicit function
targetWorldToLocal (the target's scene-graph transform is external). -/
def projectToBillboard (cam : Camera) (targetWorldToLocal : Vec3 → Vec3) (b : Billboard) : Billboard :=
  if 3 * b.vertices.length < 3 then b
  else
    let planeNormal := applyQuaternion cam.quaternion ⟨0, 0, -1⟩
    let projectionPlane := planeFromNormalAndCoplanarPoint planeNormal b.worldOrigin
    { b with
      position := ⟨0, 0, 0⟩
      rotationM := mat3Id
      meshMatrix := mat4Id
      vertices := b.vertices.map fun v =>
        targetWorldToLocal
          ((intersectPlane (cam.unprojectRay ⟨v.x, v.y⟩) projectionPlane).getD ⟨0, 0, 0⟩) }

/-- Billboard.projectToSky: no guard; resets the transform to the
defaults and replaces every vertex by its ray intersection with the
radius-495 sphere at the world origin, converted into the sky mesh's
local frame (modeled by the explicit function skyWorldToLocal). -/
def projectToSky (sqrtFn : ℚ → ℚ) (cam : Camera) (skyWorldToLocal : Vec3 → Vec3)
    (b : Billboard) : Billboard :=
  let projectionSphere : Sphere := ⟨⟨0, 0, 0⟩, 495⟩
  { b with
    position := ⟨0, 0, 0⟩
    rotationM := mat3Id
    meshMatrix := mat4Id
    vertices := b.vertices.map fun v =>
      skyWorldToLocal
        ((intersectSphere sqrtFn (cam.unprojectRay ⟨v.x, v.y⟩) projectionSphere).getD ⟨0, 0, 0⟩) }

/-- IEEE-style value for the claims about degenerate divisions: a
JavaScript number is NaN, a signed infinity, or (idealizing rounding
away) an exact rational.  Only the operations the computeH path uses are
defined. -/
inductive FVal where
  | nan : FVal
  | inf : Bool → FVal
  | num : ℚ → FVal
deriving DecidableEq, Repr

/-- IEEE negation. -/
def fneg : FVal → FVal
  | .nan => .nan
  | .inf s => .inf (!s)
  | .num q => .num (-q)

/-- IEEE addition: NaN propagates; opposite infinities give NaN. -/
def fadd : FVal → FVal → FVal
  | .nan, _ => .nan
  | _, .nan => .nan
  | .inf s, .inf t => if s = t then .inf s else .nan
  | .inf s, .num _ => .inf s
  | .num _, .inf t => .inf t
  | .num a, .num b => .num (a + b)

/-- IEEE subtraction. -/
def fsub (a b : FVal) : FVal := fadd a (fneg b)

/-- IEEE multiplication: NaN propagates; zero times infinity is NaN;
signs multiply.  Signed zeros are not modeled. -/
def fmul : FVal → FVal → FVal
  | .nan, _ => .nan
  | _, .nan => .nan
  | .inf s, .inf t => .inf (s = t)
  | .inf s, .num q => if q = 0 then .nan else .inf (s = (0 < q))
  | .num q, .inf t => if q = 0 then .nan else .inf (t = (0 < q))
  | .num a, .num b => .num (a * b)

/-- IEEE division: NaN propagates; 0/0 and inf/inf are NaN; a nonzero
finite value over zero is a signed infinity; finite over infinity is
zero.  Signed zeros are not modeled. -/
def fdiv : FVal → FVal → FVal
  | .nan, _ => .nan
  | _, .nan => .nan
  | .inf _, .inf _ => .nan
  | .inf s, .num q => .inf (s = (0 ≤ q))
  | .num _, .inf _ => .num 0
  | .num a, .num b =>
    if b = 0 then (if a = 0 then .nan else .inf (0 < a)) else .num (a / b)

/-- IEEE ordering test a <= b as JavaScript evaluates it: false whenever
either side is NaN. -/
def fle : FVal → FVal → Bool
  | .nan, _ => false
  | _, .nan => false
  | .inf s, .inf t => s = t || (!s && t)
  | .inf s, .num _ => !s
  | .num _, .inf t => t
  | .num a, .num b => a ≤ b

/-- JavaScript inequality a != b: true whenever either side is NaN. -/
def fne : FVal → FVal → Bool
  | .nan, _ => true
  | _, .nan => true
  | .inf s, .inf t => s ≠ t
  | .inf _, .num _ => true
  | .num _, .inf _ => true
  | .num a, .num b => a ≠ b

/-- 3D vector of IEEE-style values. -/
structure Vec3F where
  x : FVal
  y : FVal
  z : FVal
deriving DecidableEq, Repr

/-- Componentwise subtraction (THREE.Vector3.subVectors) over FVal. -/
def subF (a b : Vec3F) : Vec3F := ⟨fsub a.x b.x, fsub a.y b.y, fsub a.z b.z⟩

/-- Dot product (THREE.Vector3.dot) over FVal. -/
def dotF (a b : Vec3F) : FVal :=
  fadd (fadd (fmul a.x b.x) (fmul a.y b.y)) (fmul a.z b.z)

/-- Cross product (THREE.Vector3.crossVectors) over FVal. -/
def crossF (a b : Vec3F) : Vec3F :=
  ⟨fsub (fmul a.y b.z) (fmul a.z b.y),
   fsub (fmul a.z b.x) (fmul a.x b.z),
   fsub (fmul a.x b.y) (fmul a.y b.x)⟩

/-- THREE.Vector3.normalize over FVal, with the JavaScript falsy guard on
the length (0 and NaN are falsy, so both divide by 1 instead). -/
def normalizeF (sqrtF : FVal → FVal) (v : Vec3F) : Vec3F :=
  let l := sqrtF (dotF v v)
  let d := if l = FVal.num 0 ∨ l = FVal.nan then FVal.num 1 else l
  ⟨fdiv v.x d, fdiv v.y d, fdiv v.z d⟩

/-- Plane over FVal. -/
structure PlaneF where
  normal : Vec3F
  constant : FVal
deriving DecidableEq, Repr

/-- Scan loop of Ground.computeH over FVal, mirroring hLoop with IEEE
comparisons and division; the alpha division has no guard against a
zero-length bracketing interval. -/
def hLoopF (planeX origin : Vec3F) (xTarget yClosest : FVal) : Vec3F → List Vec3F → FVal
  | _, [] => .num 0
  | prev, cur :: rest =>
    let xStart := dotF (subF prev origin) planeX
    let xEnd := dotF (subF cur origin) planeX
    if fle xStart xTarget && fle xTarget xEnd then
      let alpha := fdiv (fsub xTarget xStart) (fsub xEnd xStart)
      fsub (fadd prev.y (fmul alpha (fsub cur.y prev.y))) yClosest
    else if fle xEnd xTarget && fle xTarget xStart then
      let alpha := fdiv (fsub xTarget xEnd) (fsub xStart xEnd)
      fsub (fadd cur.y (fmul alpha (fsub prev.y cur.y))) yClosest
    else hLoopF planeX origin xTarget yClosest cur rest

/-- Ground.computeH over FVal. -/
def computeHF (sqrtF : FVal → FVal) (closestPoint : Vec3F) (silhouetteCurve : List Vec3F)
    (projectionPlane : PlaneF) : FVal :=
  let planeY : Vec3F := ⟨.num 0, .num 1, .num 0⟩
  let planeX := normalizeF sqrtF (crossF planeY projectionPlane.normal)
  match silhouetteCurve with
  | [] => .num 0
  | origin :: rest =>
    let xTarget := dotF (subF closestPoint origin) planeX
    hLoopF planeX origin xTarget closestPoint.y origin rest

/-- Height write of Ground.reshapeGround (the statement guarded by
h != 0) over FVal: the blended height (1 - w) * old + w * h replaces the
old height whenever the JavaScript test h != 0 passes, which it does for
NaN. -/
def blendF (w h oldY : FVal) : FVal :=
  if fne h (.num 0) then fadd (fmul (fsub (.num 1) w) oldY) (fmul w h) else oldY

/-- Reachable billboard states: a fresh billboard followed by any
sequence of addNewPoint calls. -/
def applyStroke (sqrtFn : ℚ → ℚ) (deviceCoords : Vec2) (worldOrigin : Vec3)
    (strokeWidth : ℚ) (ps : List Vec2) : Billboard :=
  ps.foldl (addNewPoint sqrtFn) (Billboard.init deviceCoords worldOrigin strokeWidth)

/-- Ribbon buffer invariant: at least one accepted screen point, two
vertices (one left/right pair) per accepted point, six indices (two
triangles) per accepted point past the first, and every index entry
nonnegative and below the vertex count reached right after the append
batch containing it (batch k of six indices is appended together with
the vertex pair that raises the pair count to k + 2). -/
def ribbonInv (b : Billboard) : Prop :=
  1 ≤ b.screenPath.length
  ∧ b.vertices.length = 2 * b.screenPath.length
  ∧ b.indices.length = 6 * (b.screenPath.length - 1)
  ∧ ∀ j, j < b.indices.length →
      0 ≤ b.indices.getD j 0 ∧ b.indices.getD j 0 < 2 * ((j / 6 : ℕ) : ℤ) + 4

/-- Plane-space x coordinate used by Ground.computeH: the dot product of
the offset from the curve origin with planeX, the normalized cross of
world up with the projection-plane normal. -/
def xCoord (sqrtFn : ℚ → ℚ) (pl : Plane) (origin p : Vec3) : ℚ :=
  dot3 (p - origin) (normalize3 sqrtFn (cross3 ⟨0, 1, 0⟩ pl.normal))

/-- Exactness of the constructor loop: with a positive increment and an
upper bound that is exactly m increments above the start, the loop
performs m + 1 iterations and exits on its own test, for any fuel beyond
m + 1; so the fuel at the call site is irrelevant. -/
theorem forLoopQ_exact (inc : ℚ) (hinc : 0 < inc) :
    ∀ (m : ℕ) (lo : ℚ) (fuel : ℕ), m + 2 ≤ fuel →
      forLoopQ fuel lo (lo + m * inc) inc
        = (List.range (m + 1)).map fun k : ℕ => lo + (k : ℚ) * inc := by
  intro m
  induction m with
  | zero =>
    intro lo fuel hfuel
    obtain ⟨f, rfl⟩ : ∃ f, fuel = f + 1 + 1 := ⟨fuel - 2, by omega⟩
    have h1 : lo ≤ lo + ((0 : ℕ) : ℚ) * inc := by simp
    have h2 : ¬ lo + inc ≤ lo + ((0 : ℕ) : ℚ) * inc := by
      simp only [Nat.cast_zero, zero_mul, add_zero]
      linarith
    simp only [forLoopQ, if_pos h1, if_neg h2]
    simp [List.range_succ]
  | succ m ih =>
    intro lo fuel hfuel
    obtain ⟨f, rfl⟩ : ∃ f, fuel = f + 1 := ⟨fuel - 1, by omega⟩
    have h1 : lo ≤ lo + ((m + 1 : ℕ) : ℚ) * inc := by
      have hp : (0 : ℚ) < ((m + 1 : ℕ) : ℚ) * inc := by positivity
      linarith
    have key : lo + ((m + 1 : ℕ) : ℚ) * inc = (lo + inc) + (m : ℚ) * inc := by
      push_cast
      ring
    have hr : (List.range (m + 1 + 1)).map (fun k : ℕ => lo + (k : ℚ) * inc)
        = lo :: (List.range (m + 1)).map (fun k : ℕ => (lo + inc) + (k : ℚ) * inc) := by
      rw [List.range_succ_eq_map, List.map_cons, List.map_map]
      simp only [Nat.cast_zero, zero_mul, add_zero]
      congr 1
      apply List.map_eq_map_iff.mpr
      intro k hk
      simp only [Function.comp]
      push_cast
      ring
    simp only [forLoopQ, if_pos h1]
    rw [key, ih (lo + inc) f (by omega), hr]

/-- Closed form of the constructor's loop coordinates: segments + 1
equally spaced values from -size/2 to size/2. -/
theorem groundRows_eq (size : ℚ) (segments : ℕ) (hsize : 0 < size) (hseg : 1 ≤ segments) :
    groundRows size segments
      = (List.range (segments + 1)).map
          fun k : ℕ => -size / 2 + (k : ℚ) * (size / segments) := by
  have hseg0 : (segments : ℚ) ≠ 0 := Nat.cast_ne_zero.mpr (by omega)
  have hinc : 0 < size / (segments : ℚ) := by positivity
  have key : size / 2 = -size / 2 + (segments : ℚ) * (size / segments) := by
    field_simp
    ring
  unfold groundRows
  rw [key]
  exact forLoopQ_exact (size / segments) hinc segments (-size / 2) (segments + 2) (by omega)

/-- Length of a flatMap whose pieces all have the same length. -/
theorem length_flatMap_const {α β : Type} (l : List α) (f : α → List β) (L : ℕ)
    (h : ∀ a ∈ l, (f a).length = L) : (l.flatMap f).length = l.length * L := by
  induction l with
  | nil => simp
  | cons a t ih =>
    have ha := h a (by simp)
    have ht := ih fun x hx => h x (by simp [hx])
    simp [ha, ht]
    ring

/-- Range bound for the grid indexing function. -/
theorem convertRowColToIndex_lt (segments r c : ℕ) (hr : r ≤ segments) (hc : c ≤ segments) :
    convertRowColToIndex segments r c < (segments + 1) ^ 2 := by
  unfold convertRowColToIndex
  nlinarith

/-- C2: for every size > 0 and every segments >= 1, the Ground
constructor produces exactly the uniform (segments+1) x (segments+1)
grid of vertices with Y = 0 spanning [-size/2, size/2] (hence
(segments+1)^2 vertices), and exactly 6 * segments^2 triangle indices,
every one of which is a valid vertex index below (segments+1)^2. -/
theorem ground_constructor_grid (size : ℚ) (segments : ℕ)
    (hsize : 0 < size) (hseg : 1 ≤ segments) :
    groundVertices size segments
        = (List.range (segments + 1)).flatMap (fun r : ℕ =>
            (List.range (segments + 1)).map fun c : ℕ =>
              (⟨-size / 2 + (r : ℚ) * (size / segments), 0,
                -size / 2 + (c : ℚ) * (size / segments)⟩ : Vec3))
    ∧ (groundVertices size segments).length = (segments + 1) ^ 2
    ∧ (groundIndices segments).length = 6 * segments ^ 2
    ∧ ∀ idx ∈ groundIndices segments, idx < (segments + 1) ^ 2 := by
  have hrows := groundRows_eq size segments hsize hseg
  have hveq : groundVertices size segments
      = (List.range (segments + 1)).flatMap (fun r : ℕ =>
          (List.range (segments + 1)).map fun c : ℕ =>
            (⟨-size / 2 + (r : ℚ) * (size / segments), 0,
              -size / 2 + (c : ℚ) * (size / segments)⟩ : Vec3)) := by
    unfold groundVertices
    rw [hrows, List.flatMap_map]
    simp only [List.map_map]
    rfl
  refine ⟨hveq, ?_, ?_, ?_⟩
  · rw [hveq]
    rw [length_flatMap_const _ _ (segments + 1) (fun a _ => by simp)]
    simp [pow_two]
  · unfold groundIndices
    rw [length_flatMap_const _ _ (6 * segments) (fun a _ => by
      rw [length_flatMap_const _ _ 6 (fun b _ => by simp)]
      simp [Nat.mul_comm])]
    simp [pow_two]
    ring
  · intro idx hidx
    unfold groundIndices at hidx
    rw [List.mem_flatMap] at hidx
    obtain ⟨i, hi, hidx⟩ := hidx
    rw [List.mem_flatMap] at hidx
    obtain ⟨j, hj, hidx⟩ := hidx
    rw [List.mem_range] at hi hj
    simp only [List.mem_cons, List.mem_singleton, List.not_mem_nil, or_false] at hidx
    rcases hidx with h | h | h | h | h | h <;> subst h <;>
      exact convertRowColToIndex_lt segments _ _ (by omega) (by omega)

/-- Witness for ground_constructor_grid at size 2, segments 1. -/
theorem ground_constructor_grid_witness :
    (groundVertices 2 1).length = (1 + 1) ^ 2 ∧ (groundIndices 1).length = 6 * 1 ^ 2 :=
  ⟨(ground_constructor_grid 2 1 zero_lt_two (le_refl 1)).2.1,
   (ground_constructor_grid 2 1 zero_lt_two (le_refl 1)).2.2.1⟩

/-- C1: the silhouette curve built in reshapeGround has exactly one 3D
point per screenPath sample, in input order: the sample's forward
ray-plane intersection when it exists, and the zero point (0,0,0) when
intersectPlane reports none, never skipping the sample or failing. -/
theorem silhouette_one_point_per_sample (cam : Camera) (reshapePlane : Plane)
    (screenPath : List Vec2) :
    (buildSilhouette cam reshapePlane screenPath).length = screenPath.length
    ∧ (∀ i (hi : i < screenPath.length),
        (buildSilhouette cam reshapePlane screenPath).get
            ⟨i, by simpa [buildSilhouette] using hi⟩
          = (intersectPlane (cam.unprojectRay (screenPath.get ⟨i, hi⟩)) reshapePlane).getD
              ⟨0, 0, 0⟩)
    ∧ ∀ i (hi : i < screenPath.length),
        intersectPlane (cam.unprojectRay (screenPath.get ⟨i, hi⟩)) reshapePlane = none →
        (buildSilhouette cam reshapePlane screenPath).get
            ⟨i, by simpa [buildSilhouette] using hi⟩ = ⟨0, 0, 0⟩ := by
  refine ⟨by simp [buildSilhouette], ?_, ?_⟩
  · intro i hi
    simp [buildSilhouette]
  · intro i hi hnone
    rw [List.get_eq_getElem] at hnone
    simp [buildSilhouette, hnone]

/-- Witness for silhouette_one_point_per_sample: a camera whose ray is
parallel to and off the plane yields the zero point at that sample. -/
theorem silhouette_one_point_per_sample_witness :
    (buildSilhouette
        ⟨fun _ => ⟨⟨1, 0, 0⟩, ⟨0, 1, 0⟩⟩, ⟨0, 0, 0⟩, ⟨0, 0, 0, 1⟩, mat3Id, mat4Id⟩
        ⟨⟨1, 0, 0⟩, 0⟩ [⟨0, 0⟩]).get ⟨0, by decide⟩ = ⟨0, 0, 0⟩ :=
  (silhouette_one_point_per_sample
      ⟨fun _ => ⟨⟨1, 0, 0⟩, ⟨0, 1, 0⟩⟩, ⟨0, 0, 0⟩, ⟨0, 0, 0, 1⟩, mat3Id, mat4Id⟩
      ⟨⟨1, 0, 0⟩, 0⟩ [⟨0, 0⟩]).2.2 0 (by decide)
    (by simp [intersectPlane, dot3, Plane.distanceToPoint])

/-- C5: reshapeGround maps the per-vertex update across the buffer, and
that update never changes X or Z; a vertex with computeH equal to 0 is
returned untouched; when the falloff weight w is 0 the height is also
unchanged; and when h is nonzero the new height is the blend
(1 - w) * oldHeight + w * h. -/
theorem reshape_mutates_only_height (sqrtFn : ℚ → ℚ) (g : Ground)
    (screenPath : List Vec2) (sp ep : Vec3) (cam : Camera) :
    (reshapeGround sqrtFn g screenPath sp ep cam).vertices
        = g.vertices.map
            (reshapeVertex sqrtFn (reshapePlaneOf sqrtFn sp ep)
              (buildSilhouette cam (reshapePlaneOf sqrtFn sp ep) screenPath))
    ∧ ∀ (pl : Plane) (curve : List Vec3) (v : Vec3),
        (reshapeVertex sqrtFn pl curve v).x = v.x
        ∧ (reshapeVertex sqrtFn pl curve v).z = v.z
        ∧ (computeH sqrtFn (pl.projectPoint v) curve pl = 0 →
            reshapeVertex sqrtFn pl curve v = v)
        ∧ (max 0 (1 - (pl.distanceToPoint v / 5) ^ 2) = 0 →
            (reshapeVertex sqrtFn pl curve v).y = v.y)
        ∧ (computeH sqrtFn (pl.projectPoint v) curve pl ≠ 0 →
            (reshapeVertex sqrtFn pl curve v).y
              = (1 - max 0 (1 - (pl.distanceToPoint v / 5) ^ 2)) * v.y
                + max 0 (1 - (pl.distanceToPoint v / 5) ^ 2)
                  * computeH sqrtFn (pl.projectPoint v) curve pl) := by
  refine ⟨rfl, ?_⟩
  intro pl curve v
  by_cases hz : computeH sqrtFn (pl.projectPoint v) curve pl = 0
  · refine ⟨?_, ?_, ?_, ?_, ?_⟩ <;> simp [reshapeVertex, hz]
  · have hb : reshapeVertex sqrtFn pl curve v
        = ⟨v.x, (1 - max 0 (1 - (pl.distanceToPoint v / 5) ^ 2)) * v.y
            + max 0 (1 - (pl.distanceToPoint v / 5) ^ 2)
              * computeH sqrtFn (pl.projectPoint v) curve pl, v.z⟩ := by
      simp [reshapeVertex, hz]
    refine ⟨by simp [hb], by simp [hb], fun h => absurd h hz, ?_, fun _ => by simp [hb]⟩
    intro hw
    rw [hb]
    simp [hw]

/-- Concrete evaluation: computeH vanishes for a vertex whose plane-space
x coordinate (here 7) lies beyond a two-point curve of equal plane-space
x coordinates (both 0). -/
theorem computeH_eval_outside :
    computeH (fun x => x) (Plane.projectPoint ⟨⟨-1, 0, 0⟩, 0⟩ ⟨0, 3, 7⟩)
        [⟨0, 0, 0⟩, ⟨0, 0, 0⟩] ⟨⟨-1, 0, 0⟩, 0⟩ = 0 := by
  norm_num [computeH, hLoop, normalize3, cross3, lengthSq3, divideScalar3, dot3,
    Plane.projectPoint, Plane.distanceToPoint]

/-- Witness for reshape_mutates_only_height: a vertex for which computeH
evaluates to 0 is untouched. -/
theorem reshape_mutates_only_height_witness :
    reshapeVertex (fun x => x) ⟨⟨-1, 0, 0⟩, 0⟩ [⟨0, 0, 0⟩, ⟨0, 0, 0⟩] ⟨0, 3, 7⟩ = ⟨0, 3, 7⟩ :=
  ((reshape_mutates_only_height (fun x => x)
        ⟨2, 1, []⟩ [] ⟨0, 0, 0⟩ ⟨0, 0, 1⟩
        ⟨fun _ => ⟨⟨0, 0, 0⟩, ⟨0, 0, 1⟩⟩, ⟨0, 0, 0⟩, ⟨0, 0, 0, 1⟩, mat3Id, mat4Id⟩).2
    ⟨⟨-1, 0, 0⟩, 0⟩ [⟨0, 0, 0⟩, ⟨0, 0, 0⟩] ⟨0, 3, 7⟩).2.2.1 computeH_eval_outside

/-- Unit length of a vector of the form (-c/L, 0, a/L) when L is a
square root of c^2 + a^2. -/
theorem unit_of_sqrt (a c L : ℚ) (hsq : L ^ 2 = c ^ 2 + a ^ 2) (hl : L ≠ 0) :
    lengthSq3 ⟨-c / L, 0 / L, a / L⟩ = 1 := by
  simp only [lengthSq3]
  field_simp
  ring_nf
  ring_nf at hsq
  linarith [hsq]

/-- C9: for ground start/end points whose horizontal displacement is
nonzero (and a square-root function that behaves as a square root on the
relevant squared length), the reshape plane's normal is exactly
normalize(cross(end - start, worldUp)), is a unit vector, has zero Y
component, is orthogonal to the ground-projected stroke direction, and
the plane passes through the start point. -/
theorem reshape_plane_horizontal (sqrtFn : ℚ → ℚ) (sp ep : Vec3)
    (hhoriz : (ep - sp).x ≠ 0 ∨ (ep - sp).z ≠ 0)
    (hsq : sqrtFn (lengthSq3 (cross3 (ep - sp) ⟨0, 1, 0⟩)) ^ 2
        = lengthSq3 (cross3 (ep - sp) ⟨0, 1, 0⟩)) :
    (reshapePlaneOf sqrtFn sp ep).normal
        = normalize3 sqrtFn (cross3 (ep - sp) ⟨0, 1, 0⟩)
    ∧ lengthSq3 (reshapePlaneOf sqrtFn sp ep).normal = 1
    ∧ (reshapePlaneOf sqrtFn sp ep).normal.y = 0
    ∧ dot3 (reshapePlaneOf sqrtFn sp ep).normal ⟨(ep - sp).x, 0, (ep - sp).z⟩ = 0
    ∧ (reshapePlaneOf sqrtFn sp ep).distanceToPoint sp = 0 := by
  have hc : cross3 (ep - sp) ⟨0, 1, 0⟩ = ⟨-((ep - sp).z), 0, (ep - sp).x⟩ := by
    simp [cross3]
  have hs : lengthSq3 (cross3 (ep - sp) ⟨0, 1, 0⟩)
      = (ep - sp).z ^ 2 + (ep - sp).x ^ 2 := by
    rw [hc]
    simp only [lengthSq3]
    ring
  have hspos : 0 < lengthSq3 (cross3 (ep - sp) ⟨0, 1, 0⟩) := by
    rw [hs]
    rcases hhoriz with h | h
    · positivity
    · positivity
  have hl : sqrtFn (lengthSq3 (cross3 (ep - sp) ⟨0, 1, 0⟩)) ≠ 0 := by
    intro h0
    rw [h0] at hsq
    simp at hsq
    linarith
  have hnormal : (reshapePlaneOf sqrtFn sp ep).normal
      = normalize3 sqrtFn (cross3 (ep - sp) ⟨0, 1, 0⟩) := rfl
  refine ⟨hnormal, ?_, ?_, ?_, ?_⟩
  · rw [hnormal]
    simp only [normalize3, divideScalar3, if_neg hl]
    rw [hs] at hsq hl ⊢
    rw [hc]
    exact unit_of_sqrt (ep - sp).x (ep - sp).z _ hsq hl
  · rw [hnormal]
    simp only [normalize3, divideScalar3, if_neg hl]
    rw [hc]
    simp
  · rw [hnormal]
    simp only [normalize3, divideScalar3, if_neg hl]
    rw [hc]
    simp only [dot3]
    ring
  · simp only [reshapePlaneOf, planeFromNormalAndCoplanarPoint, Plane.distanceToPoint, dot3]
    ring

/-- Concrete square-root fact for the reshape-plane witness. -/
theorem reshape_plane_sqrt_eval :
    (fun x : ℚ => x) (lengthSq3 (cross3 ((⟨1, 0, 0⟩ : Vec3) - ⟨0, 0, 0⟩) ⟨0, 1, 0⟩)) ^ 2
      = lengthSq3 (cross3 ((⟨1, 0, 0⟩ : Vec3) - ⟨0, 0, 0⟩) ⟨0, 1, 0⟩) := by
  norm_num [cross3, lengthSq3]

/-- Concrete horizontal-displacement fact for the reshape-plane witness. -/
theorem reshape_plane_horiz_eval :
    ((⟨1, 0, 0⟩ : Vec3) - ⟨0, 0, 0⟩).x ≠ 0 ∨ ((⟨1, 0, 0⟩ : Vec3) - ⟨0, 0, 0⟩).z ≠ 0 := by
  left
  norm_num

/-- Witness for reshape_plane_horizontal at the unit stroke along x. -/
theorem reshape_plane_horizontal_witness :
    lengthSq3 (reshapePlaneOf (fun x : ℚ => x) ⟨0, 0, 0⟩ ⟨1, 0, 0⟩).normal = 1
    ∧ (reshapePlaneOf (fun x : ℚ => x) ⟨0, 0, 0⟩ ⟨1, 0, 0⟩).normal.y = 0 :=
  ⟨(reshape_plane_horizontal (fun x => x) ⟨0, 0, 0⟩ ⟨1, 0, 0⟩
      reshape_plane_horiz_eval reshape_plane_sqrt_eval).2.1,
   (reshape_plane_horizontal (fun x => x) ⟨0, 0, 0⟩ ⟨1, 0, 0⟩
      reshape_plane_horiz_eval reshape_plane_sqrt_eval).2.2.1⟩

/-- C6: addNewPoint is a complete no-op (every field of the billboard
unchanged, in particular both buffers and the accepted path) whenever
the new point is within strokeWidth / 2 of the last accepted point; and
with a square root sending 0 to 0 and a nonnegative stroke width,
immediately repeating addNewPoint with the same point leaves the state
unchanged on the second call. -/
theorem addNewPoint_reject_noop (sqrtFn : ℚ → ℚ) (b : Billboard) (p q : Vec2) :
    (distanceTo2 sqrtFn p ((b.screenPath.getLast?).getD ⟨0, 0⟩) ≤ b.strokeWidth / 2 →
      addNewPoint sqrtFn b p = b)
    ∧ (sqrtFn 0 = 0 → 0 ≤ b.strokeWidth →
      addNewPoint sqrtFn (addNewPoint sqrtFn b q) q = addNewPoint sqrtFn b q) := by
  have hrej : ∀ (c : Billboard) (r : Vec2),
      distanceTo2 sqrtFn r ((c.screenPath.getLast?).getD ⟨0, 0⟩) ≤ c.strokeWidth / 2 →
      addNewPoint sqrtFn c r = c := by
    intro c r h
    simp only [addNewPoint, gt_iff_lt, if_neg (not_lt.mpr h)]
  refine ⟨hrej b p, ?_⟩
  intro h0 hw
  by_cases hacc : b.strokeWidth / 2 < distanceTo2 sqrtFn q ((b.screenPath.getLast?).getD ⟨0, 0⟩)
  · have hb2path : (addNewPoint sqrtFn b q).screenPath = b.screenPath ++ [q] := by
      simp only [addNewPoint, gt_iff_lt, if_pos hacc]
    have hb2sw : (addNewPoint sqrtFn b q).strokeWidth = b.strokeWidth := by
      simp only [addNewPoint, gt_iff_lt, if_pos hacc]
    apply hrej
    rw [hb2path, hb2sw, List.getLast?_concat]
    have hdd : distSq2 q q = 0 := by
      simp [distSq2]
    simp only [Option.getD_some, distanceTo2, hdd, h0]
    positivity
  · have h1 : addNewPoint sqrtFn b q = b := hrej b q (not_lt.mp hacc)
    rw [h1]
    exact h1

/-- Concrete rejection distance for the addNewPoint witness. -/
theorem addNewPoint_dist_eval :
    distanceTo2 (fun _ : ℚ => 0) ⟨0, 0⟩
        (((Billboard.init ⟨0, 0⟩ ⟨0, 0, 0⟩ 2).screenPath.getLast?).getD ⟨0, 0⟩)
      ≤ (Billboard.init ⟨0, 0⟩ ⟨0, 0, 0⟩ 2).strokeWidth / 2 := by
  norm_num [distanceTo2, Billboard.init]

/-- Witness for addNewPoint_reject_noop: rejecting a duplicate point at
the freshly constructed billboard, and idempotence of the repeated call. -/
theorem addNewPoint_reject_noop_witness :
    addNewPoint (fun _ : ℚ => 0) (Billboard.init ⟨0, 0⟩ ⟨0, 0, 0⟩ 2) ⟨0, 0⟩
        = Billboard.init ⟨0, 0⟩ ⟨0, 0, 0⟩ 2
    ∧ addNewPoint (fun _ : ℚ => 0)
          (addNewPoint (fun _ : ℚ => 0) (Billboard.init ⟨0, 0⟩ ⟨0, 0, 0⟩ 2) ⟨1, 1⟩) ⟨1, 1⟩
        = addNewPoint (fun _ : ℚ => 0) (Billboard.init ⟨0, 0⟩ ⟨0, 0, 0⟩ 2) ⟨1, 1⟩ :=
  ⟨(addNewPoint_reject_noop (fun _ => 0) (Billboard.init ⟨0, 0⟩ ⟨0, 0, 0⟩ 2) ⟨0, 0⟩ ⟨1, 1⟩).1
      addNewPoint_dist_eval,
   (addNewPoint_reject_noop (fun _ => 0) (Billboard.init ⟨0, 0⟩ ⟨0, 0, 0⟩ 2) ⟨0, 0⟩ ⟨1, 1⟩).2
      rfl zero_le_two⟩

/-- C7, corrected: only projectToWorld and projectToBillboard carry an
emptiness guard, and it fires only when the flat buffer has no complete
vertex; for an empty vertex buffer those two are exact no-ops, while
projectToNearPlane unconditionally copies the camera matrix, position
and rotation into the billboard, and projectToSky unconditionally resets
the position, rotation and mesh matrix to their defaults (the buffers
stay unchanged only because the vertex loop has nothing to visit). -/
theorem projection_empty_guard (sqrtFn : ℚ → ℚ) (cam : Camera)
    (targetWorldToLocal skyWorldToLocal : Vec3 → Vec3) (b : Billboard)
    (hb : b.vertices = []) :
    projectToWorld sqrtFn cam b = b
    ∧ projectToBillboard cam targetWorldToLocal b = b
    ∧ projectToNearPlane cam b
        = { b with
            meshMatrix := cam.projectionMatrixInverse
            position := cam.position
            rotationM := cam.rotationM }
    ∧ projectToSky sqrtFn cam skyWorldToLocal b
        = { b with position := ⟨0, 0, 0⟩, rotationM := mat3Id, meshMatrix := mat4Id } := by
  obtain ⟨sw, spath, wo, verts, inds, pos, rot, mm⟩ := b
  simp only at hb
  subst hb
  refine ⟨?_, ?_, rfl, ?_⟩
  · simp [projectToWorld]
  · simp [projectToBillboard]
  · simp [projectToSky]

/-- Witness for projection_empty_guard on a concrete empty ribbon. -/
theorem projection_empty_guard_witness :
    projectToWorld (fun x => x)
        ⟨fun _ => ⟨⟨0, 0, 0⟩, ⟨0, 0, 1⟩⟩, ⟨1, 2, 3⟩, ⟨0, 0, 0, 1⟩, mat3Id, mat4Id⟩
        { strokeWidth := 1 / 50, screenPath := [⟨0, 0⟩], worldOrigin := ⟨0, 0, 0⟩,
          vertices := [], indices := [], position := ⟨0, 0, 0⟩,
          rotationM := mat3Id, meshMatrix := mat4Id }
      = { strokeWidth := 1 / 50, screenPath := [⟨0, 0⟩], worldOrigin := ⟨0, 0, 0⟩,
          vertices := [], indices := [], position := ⟨0, 0, 0⟩,
          rotationM := mat3Id, meshMatrix := mat4Id } :=
  (projection_empty_guard (fun x => x)
      ⟨fun _ => ⟨⟨0, 0, 0⟩, ⟨0, 0, 1⟩⟩, ⟨1, 2, 3⟩, ⟨0, 0, 0, 1⟩, mat3Id, mat4Id⟩
      (fun v => v) (fun v => v)
      { strokeWidth := 1 / 50, screenPath := [⟨0, 0⟩], worldOrigin := ⟨0, 0, 0⟩,
        vertices := [], indices := [], position := ⟨0, 0, 0⟩,
        rotationM := mat3Id, meshMatrix := mat4Id } rfl).1

/-- Counterexample to C7 as stated: on a ribbon with no vertex pair,
projectToNearPlane still changes the billboard position to the camera
position, and projectToSky still resets a nonzero position; neither mode
returns with no effect. -/
theorem projection_empty_guard_cex :
    (projectToNearPlane
        ⟨fun _ => ⟨⟨0, 0, 0⟩, ⟨0, 0, 1⟩⟩, ⟨1, 2, 3⟩, ⟨0, 0, 0, 1⟩, mat3Id, mat4Id⟩
        { strokeWidth := 1 / 50, screenPath := [], worldOrigin := ⟨0, 0, 0⟩,
          vertices := [], indices := [], position := ⟨0, 0, 0⟩,
          rotationM := mat3Id, meshMatrix := mat4Id }).position
      ≠ ⟨0, 0, 0⟩
    ∧ (projectToSky (fun x => x)
        ⟨fun _ => ⟨⟨0, 0, 0⟩, ⟨0, 0, 1⟩⟩, ⟨1, 2, 3⟩, ⟨0, 0, 0, 1⟩, mat3Id, mat4Id⟩
        (fun v => v)
        { strokeWidth := 1 / 50, screenPath := [], worldOrigin := ⟨0, 0, 0⟩,
          vertices := [], indices := [], position := ⟨4, 0, 0⟩,
          rotationM := mat3Id, meshMatrix := mat4Id }).position
      ≠ ⟨4, 0, 0⟩ := by
  constructor
  · norm_num [projectToNearPlane, Vec3.mk.injEq]
  · norm_num [projectToSky, Vec3.mk.injEq]

/-- C8, corrected: projectToWorld replaces every vertex by the forward
intersection of its unprojected camera ray with the plane through
worldOrigin whose normal is the camera's forward direction (the zero
point when the ray misses), stored relative to the billboard's position,
which is set to worldOrigin; the rotation is set by lookAt toward the
ground point beneath the camera; but the mesh's local matrix ends as the
inverse of that rotation, not the identity: the identity assignment in
the source is immediately overwritten by makeRotationFromEuler followed
by invert. -/
theorem projectToWorld_chars (sqrtFn : ℚ → ℚ) (cam : Camera) (b : Billboard)
    (hb : 1 ≤ b.vertices.length) :
    (projectToWorld sqrtFn cam b).vertices
      = b.vertices.map (fun v =>
          ((intersectPlane (cam.unprojectRay ⟨v.x, v.y⟩)
              (planeFromNormalAndCoplanarPoint
                (applyQuaternion cam.quaternion ⟨0, 0, -1⟩) b.worldOrigin)).getD ⟨0, 0, 0⟩)
            - b.worldOrigin)
    ∧ (projectToWorld sqrtFn cam b).position = b.worldOrigin
    ∧ (projectToWorld sqrtFn cam b).rotationM
        = lookAtRotObj sqrtFn b.worldOrigin ⟨cam.position.x, 0, cam.position.z⟩
    ∧ (projectToWorld sqrtFn cam b).meshMatrix
        = m4invert (mat4OfRot3
            (lookAtRotObj sqrtFn b.worldOrigin ⟨cam.position.x, 0, cam.position.z⟩)) := by
  have hguard : ¬ 3 * b.vertices.length < 3 := by omega
  refine ⟨?_, ?_, ?_, ?_⟩ <;> simp [projectToWorld, hguard]

/-- Witness for projectToWorld_chars at a two-vertex ribbon. -/
theorem projectToWorld_chars_witness :
    (projectToWorld (fun x => x)
        ⟨fun _ => ⟨⟨0, 0, 0⟩, ⟨0, 0, 1⟩⟩, ⟨1, 7, 0⟩, ⟨0, 0, 0, 1⟩, mat3Id, mat4Id⟩
        { strokeWidth := 1 / 50, screenPath := [⟨0, 0⟩], worldOrigin := ⟨0, 0, 0⟩,
          vertices := [⟨0, 0, -(999 / 1000)⟩, ⟨0, 0, -(999 / 1000)⟩], indices := [],
          position := ⟨5, 5, 5⟩, rotationM := mat3Id, meshMatrix := mat4Id }).position
      = ⟨0, 0, 0⟩ :=
  (projectToWorld_chars (fun x => x)
      ⟨fun _ => ⟨⟨0, 0, 0⟩, ⟨0, 0, 1⟩⟩, ⟨1, 7, 0⟩, ⟨0, 0, 0, 1⟩, mat3Id, mat4Id⟩
      { strokeWidth := 1 / 50, screenPath := [⟨0, 0⟩], worldOrigin := ⟨0, 0, 0⟩,
        vertices := [⟨0, 0, -(999 / 1000)⟩, ⟨0, 0, -(999 / 1000)⟩], indices := [],
        position := ⟨5, 5, 5⟩, rotationM := mat3Id, meshMatrix := mat4Id }
      (by decide)).2.1

/-- Concrete lookAt rotation used by the C8 counterexample: a billboard
at the origin looking at the ground point (1,0,0). -/
theorem lookAtRot_eval :
    lookAtRotObj (fun x => x) ⟨0, 0, 0⟩ ⟨1, 0, 0⟩ = ⟨0, 0, 1, 0, 1, 0, -1, 0, 0⟩ := by
  norm_num [lookAtRotObj, matLookAt, normalize3, divideScalar3, lengthSq3, cross3,
    Mat3.mk.injEq]

/-- Counterexample to C8 as stated: after projectToWorld with the camera
at (1,7,0) and the billboard at the origin, the mesh's local matrix is
the inverse of the lookAt rotation, which is not the identity. -/
theorem projectToWorld_matrix_cex :
    (projectToWorld (fun x => x)
        ⟨fun _ => ⟨⟨0, 0, 0⟩, ⟨0, 0, 1⟩⟩, ⟨1, 7, 0⟩, ⟨0, 0, 0, 1⟩, mat3Id, mat4Id⟩
        { strokeWidth := 1 / 50, screenPath := [⟨0, 0⟩], worldOrigin := ⟨0, 0, 0⟩,
          vertices := [⟨0, 0, -(999 / 1000)⟩, ⟨0, 0, -(999 / 1000)⟩], indices := [],
          position := ⟨5, 5, 5⟩, rotationM := mat3Id, meshMatrix := mat4Id }).meshMatrix
      ≠ mat4Id := by
  have hm : (projectToWorld (fun x => x)
      ⟨fun _ => ⟨⟨0, 0, 0⟩, ⟨0, 0, 1⟩⟩, ⟨1, 7, 0⟩, ⟨0, 0, 0, 1⟩, mat3Id, mat4Id⟩
      { strokeWidth := 1 / 50, screenPath := [⟨0, 0⟩], worldOrigin := ⟨0, 0, 0⟩,
        vertices := [⟨0, 0, -(999 / 1000)⟩, ⟨0, 0, -(999 / 1000)⟩], indices := [],
        position := ⟨5, 5, 5⟩, rotationM := mat3Id, meshMatrix := mat4Id }).meshMatrix
      = m4invert (mat4OfRot3 (lookAtRotObj (fun x => x) ⟨0, 0, 0⟩ ⟨1, 0, 0⟩)) := by
    simp [projectToWorld]
  rw [hm, lookAtRot_eval]
  norm_num [m4invert, mat4Det, det3, mat4OfRot3, mat4Id, mat4Zero, Mat4.mk.injEq]

/-- The freshly constructed billboard satisfies the ribbon invariant. -/
theorem init_ribbonInv (dc : Vec2) (wo : Vec3) (sw : ℚ) :
    ribbonInv (Billboard.init dc wo sw) := by
  refine ⟨by simp [Billboard.init], by simp [Billboard.init], by simp [Billboard.init], ?_⟩
  intro j hj
  simp [Billboard.init] at hj

/-- addNewPoint preserves the ribbon invariant: a rejected point changes
nothing, and an accepted point appends one vertex pair and one batch of
six indices referencing only the pairs present after that append. -/
theorem addNewPoint_ribbonInv (sqrtFn : ℚ → ℚ) (b : Billboard) (p : Vec2)
    (hb : ribbonInv b) : ribbonInv (addNewPoint sqrtFn b p) := by
  obtain ⟨h1, h2, h3, h4⟩ := hb
  by_cases hacc : b.strokeWidth / 2 < distanceTo2 sqrtFn p ((b.screenPath.getLast?).getD ⟨0, 0⟩)
  · have hver : (addNewPoint sqrtFn b p).vertices.length = b.vertices.length + 2 := by
      simp only [addNewPoint, gt_iff_lt, if_pos hacc]
      simp
    have hpath : (addNewPoint sqrtFn b p).screenPath.length = b.screenPath.length + 1 := by
      simp only [addNewPoint, gt_iff_lt, if_pos hacc]
      simp
    have hind : (addNewPoint sqrtFn b p).indices
        = b.indices ++ [(b.vertices.length : ℤ), (b.vertices.length : ℤ) + 1,
            (b.vertices.length : ℤ) - 2, (b.vertices.length : ℤ) - 1,
            (b.vertices.length : ℤ) - 2, (b.vertices.length : ℤ) + 1] := by
      simp only [addNewPoint, gt_iff_lt, if_pos hacc]
    refine ⟨by omega, by omega, ?_, ?_⟩
    · rw [hind, List.length_append, hpath, h3]
      simp
      omega
    · intro j hj
      rw [hind, List.length_append] at hj
      simp only [List.length_cons, List.length_nil] at hj
      rw [hind]
      by_cases hjo : j < b.indices.length
      · rw [List.getD_append _ _ 0 j hjo]
        exact h4 j hjo
      · rw [List.getD_append_right _ _ 0 j (by omega)]
        have hj6 : j / 6 = b.screenPath.length - 1 := by omega
        have hr : j - b.indices.length < 6 := by omega
        set r := j - b.indices.length with hrdef
        interval_cases r <;>
          simp only [List.getD_cons_zero, List.getD_cons_succ] <;>
          rw [hj6, h2] <;> push_cast <;> omega
  · have hnoop : addNewPoint sqrtFn b p = b := by
      simp only [addNewPoint, gt_iff_lt, if_neg hacc]
    rw [hnoop]
    exact ⟨h1, h2, h3, h4⟩

/-- The ribbon invariant holds along every addNewPoint fold. -/
theorem foldl_addNewPoint_ribbonInv (sqrtFn : ℚ → ℚ) :
    ∀ (ps : List Vec2) (b : Billboard), ribbonInv b →
      ribbonInv (ps.foldl (addNewPoint sqrtFn) b) := by
  intro ps
  induction ps with
  | nil => exact fun b hb => hb
  | cons p rest ih =>
    intro b hb
    exact ih (addNewPoint sqrtFn b p) (addNewPoint_ribbonInv sqrtFn b p hb)

/-- C3: after any sequence of addNewPoint calls, with n the number of
accepted path points (counting the constructor's initial point), the
ribbon has exactly 2n vertices (in particular an even number) and
exactly 2(n-1) triangles, i.e. 6(n-1) index entries; and every index
entry is nonnegative, below the vertex count present right after the
batch of six containing it was appended (2 * (j / 6) + 4 vertex triples
for position j), and below the final vertex count. -/
theorem ribbon_counts (sqrtFn : ℚ → ℚ) (dc : Vec2) (wo : Vec3) (sw : ℚ) (ps : List Vec2) :
    1 ≤ (applyStroke sqrtFn dc wo sw ps).screenPath.length
    ∧ (applyStroke sqrtFn dc wo sw ps).vertices.length
        = 2 * (applyStroke sqrtFn dc wo sw ps).screenPath.length
    ∧ Even (applyStroke sqrtFn dc wo sw ps).vertices.length
    ∧ (applyStroke sqrtFn dc wo sw ps).indices.length
        = 3 * (2 * ((applyStroke sqrtFn dc wo sw ps).screenPath.length - 1))
    ∧ ∀ j, j < (applyStroke sqrtFn dc wo sw ps).indices.length →
        0 ≤ (applyStroke sqrtFn dc wo sw ps).indices.getD j 0
        ∧ (applyStroke sqrtFn dc wo sw ps).indices.getD j 0 < 2 * ((j / 6 : ℕ) : ℤ) + 4
        ∧ (applyStroke sqrtFn dc wo sw ps).indices.getD j 0
            < ((applyStroke sqrtFn dc wo sw ps).vertices.length : ℤ) := by
  have hinv : ribbonInv (applyStroke sqrtFn dc wo sw ps) :=
    foldl_addNewPoint_ribbonInv sqrtFn ps (Billboard.init dc wo sw) (init_ribbonInv dc wo sw)
  obtain ⟨h1, h2, h3, h4⟩ := hinv
  refine ⟨h1, h2, ⟨(applyStroke sqrtFn dc wo sw ps).screenPath.length, by omega⟩, by omega, ?_⟩
  intro j hj
  obtain ⟨hge, hlt⟩ := h4 j hj
  refine ⟨hge, hlt, lt_of_lt_of_le hlt ?_⟩
  have : j / 6 + 2 ≤ (applyStroke sqrtFn dc wo sw ps).screenPath.length := by omega
  push_cast
  omega

/-- Concrete index-buffer length after one accepted point. -/
theorem applyStroke_len_eval :
    (applyStroke (fun _ : ℚ => 1) ⟨0, 0⟩ ⟨0, 0, 0⟩ 0 [⟨1, 1⟩]).indices.length = 6 := by
  norm_num [applyStroke, addNewPoint, Billboard.init, distanceTo2, distSq2]

/-- Witness for ribbon_counts after one accepted point: four vertices,
six index entries, and the first entry within bounds. -/
theorem ribbon_counts_witness :
    (applyStroke (fun _ : ℚ => 1) ⟨0, 0⟩ ⟨0, 0, 0⟩ 0 [⟨1, 1⟩]).vertices.length
        = 2 * (applyStroke (fun _ : ℚ => 1) ⟨0, 0⟩ ⟨0, 0, 0⟩ 0 [⟨1, 1⟩]).screenPath.length
    ∧ 0 ≤ (applyStroke (fun _ : ℚ => 1) ⟨0, 0⟩ ⟨0, 0, 0⟩ 0 [⟨1, 1⟩]).indices.getD 0 0
    ∧ (applyStroke (fun _ : ℚ => 1) ⟨0, 0⟩ ⟨0, 0, 0⟩ 0 [⟨1, 1⟩]).indices.getD 0 0
        < 2 * ((0 / 6 : ℕ) : ℤ) + 4 :=
  ⟨(ribbon_counts (fun _ => 1) ⟨0, 0⟩ ⟨0, 0, 0⟩ 0 [⟨1, 1⟩]).2.1,
   ((ribbon_counts (fun _ => 1) ⟨0, 0⟩ ⟨0, 0, 0⟩ 0 [⟨1, 1⟩]).2.2.2.2 0
      (by simp [applyStroke_len_eval])).1,
   ((ribbon_counts (fun _ => 1) ⟨0, 0⟩ ⟨0, 0, 0⟩ 0 [⟨1, 1⟩]).2.2.2.2 0
      (by simp [applyStroke_len_eval])).2.1⟩

/-- A getD entry at an in-range position is a member of the list. -/
theorem getD_mem_of_lt {α : Type} (l : List α) (i : ℕ) (hi : i < l.length) (d : α) :
    l.getD i d ∈ l := by
  rw [List.getD_eq_getElem?_getD, List.getElem?_eq_getElem hi]
  simp

/-- The computeH scan returns 0 when no consecutive pair of curve points
brackets the target, in either direction. -/
theorem hLoop_eq_zero (planeX origin : Vec3) (xT yC : ℚ) :
    ∀ (l : List Vec3) (prev : Vec3),
      (∀ i, i + 1 ≤ l.length →
        ¬(dot3 ((prev :: l).getD i ⟨0, 0, 0⟩ - origin) planeX ≤ xT
            ∧ xT ≤ dot3 ((prev :: l).getD (i + 1) ⟨0, 0, 0⟩ - origin) planeX)
        ∧ ¬(dot3 ((prev :: l).getD (i + 1) ⟨0, 0, 0⟩ - origin) planeX ≤ xT
            ∧ xT ≤ dot3 ((prev :: l).getD i ⟨0, 0, 0⟩ - origin) planeX)) →
      hLoop planeX origin xT yC prev l = 0 := by
  intro l
  induction l with
  | nil =>
    intro prev h
    rfl
  | cons cur rest ih =>
    intro prev h
    have h0 := h 0 (by simp)
    simp only [List.getD_cons_zero, List.getD_cons_succ] at h0
    simp only [hLoop]
    rw [if_neg h0.1, if_neg h0.2]
    refine ih cur fun i hi => ?_
    have hs := h (i + 1) (by simpa using hi)
    simpa only [List.getD_cons_succ] using hs

/-- The computeH scan returns the interpolation of the first bracketing
pair, testing ascending bracketing before descending on each pair. -/
theorem hLoop_first_bracket (planeX origin : Vec3) (xT yC : ℚ) :
    ∀ (k : ℕ) (l : List Vec3) (prev : Vec3), k + 1 ≤ l.length →
      (∀ j, j + 1 ≤ k →
        ¬(dot3 ((prev :: l).getD j ⟨0, 0, 0⟩ - origin) planeX ≤ xT
            ∧ xT ≤ dot3 ((prev :: l).getD (j + 1) ⟨0, 0, 0⟩ - origin) planeX)
        ∧ ¬(dot3 ((prev :: l).getD (j + 1) ⟨0, 0, 0⟩ - origin) planeX ≤ xT
            ∧ xT ≤ dot3 ((prev :: l).getD j ⟨0, 0, 0⟩ - origin) planeX)) →
      ((dot3 ((prev :: l).getD k ⟨0, 0, 0⟩ - origin) planeX ≤ xT
          ∧ xT ≤ dot3 ((prev :: l).getD (k + 1) ⟨0, 0, 0⟩ - origin) planeX) →
        hLoop planeX origin xT yC prev l
          = ((prev :: l).getD k ⟨0, 0, 0⟩).y
            + (xT - dot3 ((prev :: l).getD k ⟨0, 0, 0⟩ - origin) planeX)
              / (dot3 ((prev :: l).getD (k + 1) ⟨0, 0, 0⟩ - origin) planeX
                  - dot3 ((prev :: l).getD k ⟨0, 0, 0⟩ - origin) planeX)
              * (((prev :: l).getD (k + 1) ⟨0, 0, 0⟩).y - ((prev :: l).getD k ⟨0, 0, 0⟩).y)
            - yC)
      ∧ (¬(dot3 ((prev :: l).getD k ⟨0, 0, 0⟩ - origin) planeX ≤ xT
            ∧ xT ≤ dot3 ((prev :: l).getD (k + 1) ⟨0, 0, 0⟩ - origin) planeX) →
          (dot3 ((prev :: l).getD (k + 1) ⟨0, 0, 0⟩ - origin) planeX ≤ xT
            ∧ xT ≤ dot3 ((prev :: l).getD k ⟨0, 0, 0⟩ - origin) planeX) →
        hLoop planeX origin xT yC prev l
          = ((prev :: l).getD (k + 1) ⟨0, 0, 0⟩).y
            + (xT - dot3 ((prev :: l).getD (k + 1) ⟨0, 0, 0⟩ - origin) planeX)
              / (dot3 ((prev :: l).getD k ⟨0, 0, 0⟩ - origin) planeX
                  - dot3 ((prev :: l).getD (k + 1) ⟨0, 0, 0⟩ - origin) planeX)
              * (((prev :: l).getD k ⟨0, 0, 0⟩).y - ((prev :: l).getD (k + 1) ⟨0, 0, 0⟩).y)
            - yC) := by
  intro k
  induction k with
  | zero =>
    intro l prev hlen hfirst
    cases l with
    | nil => simp at hlen
    | cons cur rest =>
      simp only [List.getD_cons_zero, List.getD_cons_succ, hLoop]
      constructor
      · intro hasc
        rw [if_pos hasc]
      · intro hnasc hdesc
        rw [if_neg hnasc, if_pos hdesc]
  | succ k ih =>
    intro l prev hlen hfirst
    cases l with
    | nil => simp at hlen
    | cons cur rest =>
      have h0 := hfirst 0 (by omega)
      simp only [List.getD_cons_zero, List.getD_cons_succ] at h0
      simp only [List.getD_cons_succ, hLoop]
      rw [if_neg h0.1, if_neg h0.2]
      refine ih rest cur (by simpa using hlen) fun j hj => ?_
      have hs := hfirst (j + 1) (by omega)
      simpa only [List.getD_cons_succ] using hs

/-- C4: computeH scans consecutive curve pairs in order: it returns 0
when no pair brackets the target plane-space x (first conjunct), in
particular whenever the target lies strictly outside the curve's
plane-space x span (second conjunct); and for the first bracketing pair
it returns the curve's world Y linearly interpolated at the bracketing
fraction minus closestPoint.y, testing ascending bracketing before
descending on each pair (third conjunct). -/
theorem computeH_scan_c4 (sqrtFn : ℚ → ℚ) (closest : Vec3) (pl : Plane)
    (c0 : Vec3) (rest : List Vec3) :
    ((∀ i, i + 1 ≤ rest.length →
        ¬(xCoord sqrtFn pl c0 ((c0 :: rest).getD i ⟨0, 0, 0⟩) ≤ xCoord sqrtFn pl c0 closest
            ∧ xCoord sqrtFn pl c0 closest ≤ xCoord sqrtFn pl c0 ((c0 :: rest).getD (i + 1) ⟨0, 0, 0⟩))
        ∧ ¬(xCoord sqrtFn pl c0 ((c0 :: rest).getD (i + 1) ⟨0, 0, 0⟩) ≤ xCoord sqrtFn pl c0 closest
            ∧ xCoord sqrtFn pl c0 closest ≤ xCoord sqrtFn pl c0 ((c0 :: rest).getD i ⟨0, 0, 0⟩))) →
      computeH sqrtFn closest (c0 :: rest) pl = 0)
    ∧ (((∀ p ∈ c0 :: rest, xCoord sqrtFn pl c0 closest < xCoord sqrtFn pl c0 p)
        ∨ (∀ p ∈ c0 :: rest, xCoord sqrtFn pl c0 p < xCoord sqrtFn pl c0 closest)) →
      computeH sqrtFn closest (c0 :: rest) pl = 0)
    ∧ (∀ k, k + 1 ≤ rest.length →
        (∀ j, j + 1 ≤ k →
          ¬(xCoord sqrtFn pl c0 ((c0 :: rest).getD j ⟨0, 0, 0⟩) ≤ xCoord sqrtFn pl c0 closest
              ∧ xCoord sqrtFn pl c0 closest ≤ xCoord sqrtFn pl c0 ((c0 :: rest).getD (j + 1) ⟨0, 0, 0⟩))
          ∧ ¬(xCoord sqrtFn pl c0 ((c0 :: rest).getD (j + 1) ⟨0, 0, 0⟩) ≤ xCoord sqrtFn pl c0 closest
              ∧ xCoord sqrtFn pl c0 closest ≤ xCoord sqrtFn pl c0 ((c0 :: rest).getD j ⟨0, 0, 0⟩))) →
        ((xCoord sqrtFn pl c0 ((c0 :: rest).getD k ⟨0, 0, 0⟩) ≤ xCoord sqrtFn pl c0 closest
            ∧ xCoord sqrtFn pl c0 closest ≤ xCoord sqrtFn pl c0 ((c0 :: rest).getD (k + 1) ⟨0, 0, 0⟩)) →
          computeH sqrtFn closest (c0 :: rest) pl
            = ((c0 :: rest).getD k ⟨0, 0, 0⟩).y
              + (xCoord sqrtFn pl c0 closest - xCoord sqrtFn pl c0 ((c0 :: rest).getD k ⟨0, 0, 0⟩))
                / (xCoord sqrtFn pl c0 ((c0 :: rest).getD (k + 1) ⟨0, 0, 0⟩)
                    - xCoord sqrtFn pl c0 ((c0 :: rest).getD k ⟨0, 0, 0⟩))
                * (((c0 :: rest).getD (k + 1) ⟨0, 0, 0⟩).y - ((c0 :: rest).getD k ⟨0, 0, 0⟩).y)
              - closest.y)
        ∧ (¬(xCoord sqrtFn pl c0 ((c0 :: rest).getD k ⟨0, 0, 0⟩) ≤ xCoord sqrtFn pl c0 closest
              ∧ xCoord sqrtFn pl c0 closest ≤ xCoord sqrtFn pl c0 ((c0 :: rest).getD (k + 1) ⟨0, 0, 0⟩)) →
            (xCoord sqrtFn pl c0 ((c0 :: rest).getD (k + 1) ⟨0, 0, 0⟩) ≤ xCoord sqrtFn pl c0 closest
              ∧ xCoord sqrtFn pl c0 closest ≤ xCoord sqrtFn pl c0 ((c0 :: rest).getD k ⟨0, 0, 0⟩)) →
          computeH sqrtFn closest (c0 :: rest) pl
            = ((c0 :: rest).getD (k + 1) ⟨0, 0, 0⟩).y
              + (xCoord sqrtFn pl c0 closest - xCoord sqrtFn pl c0 ((c0 :: rest).getD (k + 1) ⟨0, 0, 0⟩))
                / (xCoord sqrtFn pl c0 ((c0 :: rest).getD k ⟨0, 0, 0⟩)
                    - xCoord sqrtFn pl c0 ((c0 :: rest).getD (k + 1) ⟨0, 0, 0⟩))
                * (((c0 :: rest).getD k ⟨0, 0, 0⟩).y - ((c0 :: rest).getD (k + 1) ⟨0, 0, 0⟩).y)
              - closest.y)) := by
  have hrw : computeH sqrtFn closest (c0 :: rest) pl
      = hLoop (normalize3 sqrtFn (cross3 ⟨0, 1, 0⟩ pl.normal)) c0
          (dot3 (closest - c0) (normalize3 sqrtFn (cross3 ⟨0, 1, 0⟩ pl.normal)))
          closest.y c0 rest := rfl
  have hzero : (∀ i, i + 1 ≤ rest.length →
      ¬(xCoord sqrtFn pl c0 ((c0 :: rest).getD i ⟨0, 0, 0⟩) ≤ xCoord sqrtFn pl c0 closest
          ∧ xCoord sqrtFn pl c0 closest ≤ xCoord sqrtFn pl c0 ((c0 :: rest).getD (i + 1) ⟨0, 0, 0⟩))
      ∧ ¬(xCoord sqrtFn pl c0 ((c0 :: rest).getD (i + 1) ⟨0, 0, 0⟩) ≤ xCoord sqrtFn pl c0 closest
          ∧ xCoord sqrtFn pl c0 closest ≤ xCoord sqrtFn pl c0 ((c0 :: rest).getD i ⟨0, 0, 0⟩))) →
      computeH sqrtFn closest (c0 :: rest) pl = 0 := by
    intro h
    rw [hrw]
    exact hLoop_eq_zero _ _ _ _ rest c0 h
  refine ⟨hzero, ?_, ?_⟩
  · intro hout
    apply hzero
    intro i hi
    have hmem1 : (c0 :: rest).getD i ⟨0, 0, 0⟩ ∈ c0 :: rest :=
      getD_mem_of_lt _ i (by simp only [List.length_cons]; omega) _
    have hmem2 : (c0 :: rest).getD (i + 1) ⟨0, 0, 0⟩ ∈ c0 :: rest :=
      getD_mem_of_lt _ (i + 1) (by simp only [List.length_cons]; omega) _
    rcases hout with hall | hall
    · constructor
      · rintro ⟨hle, -⟩
        exact absurd hle (not_le.mpr (hall _ hmem1))
      · rintro ⟨hle, -⟩
        exact absurd hle (not_le.mpr (hall _ hmem2))
    · constructor
      · rintro ⟨-, hle⟩
        exact absurd hle (not_le.mpr (hall _ hmem2))
      · rintro ⟨-, hle⟩
        exact absurd hle (not_le.mpr (hall _ hmem1))
  · intro k hk hfirst
    constructor
    · intro hasc
      rw [hrw]
      exact (hLoop_first_bracket _ _ _ _ k rest c0 hk hfirst).1 hasc
    · intro hnasc hdesc
      rw [hrw]
      exact (hLoop_first_bracket _ _ _ _ k rest c0 hk hfirst).2 hnasc hdesc

/-- Concrete no-bracket fact for the computeH witness: with the target
plane-space x at 5 and curve x values 0, 1, 2, no pair brackets it. -/
theorem computeH_nobracket_eval :
    ∀ i, i + 1 ≤ ([⟨0, 1, 1⟩, ⟨0, 0, 2⟩] : List Vec3).length →
      ¬(xCoord (fun x => x) ⟨⟨-1, 0, 0⟩, 0⟩ ⟨0, 0, 0⟩
            (((⟨0, 0, 0⟩ : Vec3) :: [⟨0, 1, 1⟩, ⟨0, 0, 2⟩]).getD i ⟨0, 0, 0⟩)
          ≤ xCoord (fun x => x) ⟨⟨-1, 0, 0⟩, 0⟩ ⟨0, 0, 0⟩ ⟨0, 0, 5⟩
        ∧ xCoord (fun x => x) ⟨⟨-1, 0, 0⟩, 0⟩ ⟨0, 0, 0⟩ ⟨0, 0, 5⟩
          ≤ xCoord (fun x => x) ⟨⟨-1, 0, 0⟩, 0⟩ ⟨0, 0, 0⟩
              (((⟨0, 0, 0⟩ : Vec3) :: [⟨0, 1, 1⟩, ⟨0, 0, 2⟩]).getD (i + 1) ⟨0, 0, 0⟩))
      ∧ ¬(xCoord (fun x => x) ⟨⟨-1, 0, 0⟩, 0⟩ ⟨0, 0, 0⟩
            (((⟨0, 0, 0⟩ : Vec3) :: [⟨0, 1, 1⟩, ⟨0, 0, 2⟩]).getD (i + 1) ⟨0, 0, 0⟩)
          ≤ xCoord (fun x => x) ⟨⟨-1, 0, 0⟩, 0⟩ ⟨0, 0, 0⟩ ⟨0, 0, 5⟩
        ∧ xCoord (fun x => x) ⟨⟨-1, 0, 0⟩, 0⟩ ⟨0, 0, 0⟩ ⟨0, 0, 5⟩
          ≤ xCoord (fun x => x) ⟨⟨-1, 0, 0⟩, 0⟩ ⟨0, 0, 0⟩
              (((⟨0, 0, 0⟩ : Vec3) :: [⟨0, 1, 1⟩, ⟨0, 0, 2⟩]).getD i ⟨0, 0, 0⟩)) := by
  intro i hi
  simp only [List.length_cons, List.length_nil] at hi
  have hcase : i = 0 ∨ i = 1 := by omega
  rcases hcase with rfl | rfl <;>
    norm_num [xCoord, dot3, normalize3, divideScalar3, lengthSq3, cross3,
      List.getD_cons_zero, List.getD_cons_succ]

/-- Concrete outside-span fact for the computeH witness: every curve
plane-space x value lies strictly below the target value 5. -/
theorem computeH_outside_eval :
    ∀ p ∈ ((⟨0, 0, 0⟩ : Vec3) :: [⟨0, 1, 1⟩, ⟨0, 0, 2⟩]),
      xCoord (fun x => x) ⟨⟨-1, 0, 0⟩, 0⟩ ⟨0, 0, 0⟩ p
        < xCoord (fun x => x) ⟨⟨-1, 0, 0⟩, 0⟩ ⟨0, 0, 0⟩ ⟨0, 0, 5⟩ := by
  intro p hp
  fin_cases hp <;>
    norm_num [xCoord, dot3, normalize3, divideScalar3, lengthSq3, cross3]

/-- Witness for computeH_scan_c4: the target outside the span gives 0,
through both the no-bracket conjunct and the outside-span conjunct. -/
theorem computeH_scan_c4_witness :
    computeH (fun x => x) ⟨0, 0, 5⟩ [⟨0, 0, 0⟩, ⟨0, 1, 1⟩, ⟨0, 0, 2⟩] ⟨⟨-1, 0, 0⟩, 0⟩ = 0
    ∧ computeH (fun x => x) ⟨0, 0, 5⟩ [⟨0, 0, 0⟩, ⟨0, 1, 1⟩, ⟨0, 0, 2⟩] ⟨⟨-1, 0, 0⟩, 0⟩ = 0 :=
  ⟨(computeH_scan_c4 (fun x => x) ⟨0, 0, 5⟩ ⟨⟨-1, 0, 0⟩, 0⟩ ⟨0, 0, 0⟩
      [⟨0, 1, 1⟩, ⟨0, 0, 2⟩]).1 computeH_nobracket_eval,
   (computeH_scan_c4 (fun x => x) ⟨0, 0, 5⟩ ⟨⟨-1, 0, 0⟩, 0⟩ ⟨0, 0, 0⟩
      [⟨0, 1, 1⟩, ⟨0, 0, 2⟩]).2.1 (Or.inr computeH_outside_eval)⟩

/-- C10: over the IEEE-style value model, computeH applied to a curve
whose first bracketing pair has equal plane-space x coordinates (two
consecutive duplicate curve points, both at the target x) takes the
bracketing branch with alpha = 0/0 and returns NaN instead of a height;
and the height write of reshapeGround does not exclude NaN: the
JavaScript test h != 0 passes on NaN, so the blended height
(1 - w) * old + w * NaN evaluates to NaN and is written, for every
rational falloff weight w (in particular every nonzero one) and every
old height. -/
theorem computeH_nan_c10 :
    computeHF (fun x => x) ⟨.num 0, .num 2, .num 0⟩
        [⟨.num 0, .num 0, .num 0⟩, ⟨.num 0, .num 0, .num 0⟩]
        ⟨⟨.num (-1), .num 0, .num 0⟩, .num 0⟩ = FVal.nan
    ∧ ∀ (w y : ℚ), blendF (.num w) .nan (.num y) = FVal.nan := by
  constructor
  · norm_num [computeHF, hLoopF, normalizeF, crossF, dotF, subF, fadd, fsub, fmul, fdiv,
      fneg, fle, fne]
  · intro w y
    rfl
